import Mathlib

/-!
Shallow embedding of `src/wbstatus.py` (bd808/phab-wbstatus): the transaction
normalizer `get_filtered_transactions_for_task` and the interval state reducer
`build_taskstate_from_transactions`, together with the small datetime layer the
reducer uses for its comparisons.

Modelling conventions:
* Python `None` and strings are modelled by `Option String` (`none` = `None`);
  Python truthiness of such a value is `truthyOpt` (empty string and `None` are
  falsy).
* The per-field dicts inside `taskstate` (`{'start': ..., 'end': ...}`) are
  modelled by `FieldState`: an outer `Option` records whether the key is
  present at all (Python distinguishes a missing key from a key set to `None`).
* `phidstore.add` accumulates into a `Finset (Option String)` (a Python `set`).
* Timezone-aware `datetime` values are modelled by `AwareDT`: a local
  wall-clock value plus a UTC offset; Python compares aware datetimes by their
  UTC instant (`local - offset`), which `AwareDT.instant` captures.
  `dt_fromtimestamp ts off` models `datetime.fromtimestamp(ts, tz)`: the local
  representation is `ts + off`, so the instant is exactly `ts`.
* Exceptions raised while normalizing a malformed recognized record (Python
  `TypeError`/`KeyError`/`IndexError`) are modelled by `Except String`; the
  shapes in which they arise carry no claim content.
-/

namespace Wbstatus

/-- Python truthiness of a value that is `None` or a string. -/
def truthyOpt : Option String → Bool
  | none => false
  | some s => !s.isEmpty

/-- A timezone-aware datetime: local wall-clock seconds plus UTC offset in
seconds.  Python compares aware datetimes by UTC instant. -/
structure AwareDT where
  localSec : Int
  offset : Int
deriving DecidableEq, Repr

/-- The UTC instant an aware datetime denotes (what Python comparison uses). -/
def AwareDT.instant (d : AwareDT) : Int := d.localSec - d.offset

/-- `tz.tzutc()` has offset 0. -/
def tzutc : Int := 0

/-- `datetime.fromtimestamp(ts, tz)`: local representation of epoch second
`ts` in a zone with the given offset. -/
def dt_fromtimestamp (ts : Int) (off : Int) : AwareDT := ⟨ts + off, off⟩

/-- Python `<` on aware datetimes. -/
def AwareDT.ltB (a b : AwareDT) : Bool := decide (a.instant < b.instant)

/-- Python `<=` on aware datetimes. -/
def AwareDT.leB (a b : AwareDT) : Bool := decide (a.instant ≤ b.instant)

/-- Python `>` on aware datetimes. -/
def AwareDT.gtB (a b : AwareDT) : Bool := decide (b.instant < a.instant)

/-- Python `>=` on aware datetimes. -/
def AwareDT.geB (a b : AwareDT) : Bool := decide (b.instant ≤ a.instant)

/-- The hard-coded team project PHID (`MWCORETEAM_PHID` in the source). -/
def MWCORETEAM_PHID : String := "PHID-PROJ-oft3zinwvih7bgdhpfgj"

/-- The `columnPHIDs` payload of a `projectcolumn` transaction: either a
mapping (Python `dict`, kept as an ordered association list) or a plain
collection of column ids. -/
inductive ColPHIDs where
  | asDict (entries : List (String × String))
  | asList (entries : List String)
deriving DecidableEq, Repr

/-- A raw `oldValue`/`newValue` payload as received from the transaction
feed: `None`, a scalar string, or a project/column object. -/
inductive RawValue where
  | pyNone
  | pyStr (s : String)
  | proj (projectPHID : String) (columnPHIDs : ColPHIDs)
deriving DecidableEq, Repr

/-- One raw record of the per-task transaction feed. `dateCreated` is kept as
the integer the source obtains via `int(tact['dateCreated'])`. -/
structure RawTransaction where
  transactionType : String
  dateCreated : Int
  authorPHID : Option String
  oldValue : RawValue
  newValue : RawValue
deriving DecidableEq, Repr

/-- A normalized transaction item as built by
`get_filtered_transactions_for_task`. -/
structure Item where
  transactionType : String
  timestamp : Int
  authorPHID : Option String
  oldValue : Option String
  newValue : Option String
deriving DecidableEq, Repr

/-- Reading a raw payload where the source stores it unchanged into a scalar
item slot (`status`/`title`/`reassign`).  A structured payload in such a slot
is a shape breach of the upstream contract (spec        section 4.1 DataShapeError). -/
def RawValue.asScalar : RawValue → Except String (Option String)
  | .pyNone => .ok none
  | .pyStr s => .ok (some s)
  | .proj _ _ => .error "DataShapeError: scalar payload expected"

/-- One iteration of the loop body of `get_filtered_transactions_for_task`:
returns the item appended for this record (`none` when the record is
discarded) and the updated `phidstore` contents. -/
def filterOne (tact : RawTransaction) (phids : Finset (Option String)) :
    Except String (Option Item × Finset (Option String)) :=
  -- phidstore.add(item['authorPHID']) happens before the kind dispatch
  let phids1 := insert tact.authorPHID phids
  if tact.transactionType = "status" ∨ tact.transactionType = "title" then
    match tact.oldValue.asScalar, tact.newValue.asScalar with
    | .ok o, .ok n =>
        .ok (some ⟨tact.transactionType, tact.dateCreated, tact.authorPHID, o, n⟩, phids1)
    | _, _ => .error "DataShapeError"
  else if tact.transactionType = "reassign" then
    match tact.oldValue.asScalar, tact.newValue.asScalar with
    | .ok o, .ok n =>
        let phids2 := if truthyOpt o then insert o phids1 else phids1
        let phids3 := if truthyOpt n then insert n phids2 else phids2
        .ok (some ⟨"reassign", tact.dateCreated, tact.authorPHID, o, n⟩, phids3)
    | _, _ => .error "DataShapeError"
  else if tact.transactionType = "projectcolumn" then
    match tact.oldValue with
    | .proj p oldCols =>
        if p = MWCORETEAM_PHID then
          match oldCols with
          | .asDict [] => .error "IndexError: empty columnPHIDs mapping"
          | .asDict ((_, v) :: _) =>
              -- oldvalphids.values()[0]: first mapped value, rest dropped
              match tact.newValue with
              | .proj _ (.asList (c :: _)) =>
                  .ok (some ⟨"projectcolumn", tact.dateCreated, tact.authorPHID, some v, some c⟩,
                       insert (some c) (insert (some v) phids1))
              | _ => .error "DataShapeError: newValue columnPHIDs"
          | .asList _ =>
              -- not a dict: item['oldValue'] = None
              match tact.newValue with
              | .proj _ (.asList (c :: _)) =>
                  .ok (some ⟨"projectcolumn", tact.dateCreated, tact.authorPHID, none, some c⟩,
                       insert (some c) phids1)
              | _ => .error "DataShapeError: newValue columnPHIDs"
        else
          -- project mismatch: the record is discarded (item = {})
          .ok (none, phids1)
    | _ => .error "DataShapeError: oldValue of projectcolumn"
  else
    -- any other transactionType is discarded (item = {})
    .ok (none, phids1)

/-- `get_filtered_transactions_for_task`: fold `filterOne` over the feed,
collecting the accepted items in order. -/
def get_filtered_transactions_for_task :
    List RawTransaction → Finset (Option String) →
    Except String (List Item × Finset (Option String))
  | [], phids => .ok ([], phids)
  | tact :: rest, phids =>
    match filterOne tact phids with
    | .error e => .error e
    | .ok (none, phids') => get_filtered_transactions_for_task rest phids'
    | .ok (some item, phids') =>
        match get_filtered_transactions_for_task rest phids' with
        | .error e => .error e
        | .ok (items, phidsF) => .ok (item :: items, phidsF)

/-- The four tracked fields (`tmap` targets in the source). -/
inductive FieldKey where
  | column
  | status
  | assignee
  | title
deriving DecidableEq, Repr

/-- The fixed `tmap` from transaction types to tracked fields. -/
def tmap : String → Option FieldKey
  | "projectcolumn" => some .column
  | "status" => some .status
  | "reassign" => some .assignee
  | "title" => some .title
  | _ => none

/-- One per-field dict `{'start': ..., 'end': ...}`.  The outer `Option` is
key presence; the inner `Option String` is the stored Python value (which may
itself be `None`). -/
structure FieldState where
  startV : Option (Option String) := none
  endV : Option (Option String) := none
deriving DecidableEq, Repr

/-- Python truthiness of the field dict (`taskstate.get(tmap[ttype])`): true
iff some key is present. -/
def FieldState.isSet (fs : FieldState) : Bool := fs.startV.isSome || fs.endV.isSome

/-- The milestone column configuration (`global_config['workboard_state_phids']`). -/
structure WBConfig where
  todo : String
  indev : String
  feedback : String
  archive : String
  done : String
deriving DecidableEq, Repr

/-- The hard-coded configuration from the source. -/
def global_config : WBConfig :=
  { todo := "PHID-PCOL-7w2pgpuac4mxaqtjbso3"
    indev := "PHID-PCOL-hw5bskuzbvvef2zihx6r"
    feedback := "PHID-PCOL-nwvtvi6b6rq32opevo7o"
    archive := "PHID-PCOL-vdldqhpp2qukxikpf4zf"
    done := "PHID-PCOL-vhdu7nnvhs6c76axdswy" }

/-- The per-task state the reducer builds. -/
@[ext]
structure TaskState where
  column : FieldState := {}
  status : FieldState := {}
  assignee : FieldState := {}
  title : FieldState := {}
  actorset : Finset (Option String) := ∅
  waitingsince : Option AwareDT := none
  workingsince : Option AwareDT := none
deriving DecidableEq

/-- `taskstate[tmap[ttype]]` as a read. -/
def TaskState.getField (ts : TaskState) : FieldKey → FieldState
  | .column => ts.column
  | .status => ts.status
  | .assignee => ts.assignee
  | .title => ts.title

/-- `taskstate[tmap[ttype]] = ...` as a write. -/
def TaskState.setField (ts : TaskState) : FieldKey → FieldState → TaskState
  | .column, fs => { ts with column := fs }
  | .status, fs => { ts with status := fs }
  | .assignee, fs => { ts with assignee := fs }
  | .title, fs => { ts with title := fs }

/-- The two-branch start/end update for one tracked field (lines 220-224 of the
source), already specialised to one event. -/
def fsStep (start : AwareDT) (fs : FieldState) (tact : Item) : FieldState :=
  let ttime := dt_fromtimestamp tact.timestamp tzutc
  let fs1 :=
    if ttime.geB start && !fs.isSet then { fs with startV := some tact.oldValue }
    else if ttime.ltB start then { fs with startV := some tact.newValue }
    else fs
  { fs1 with endV := some tact.newValue }

/-- The body of the reducer's loop for one transaction (field boundary update,
actor aggregation, milestone detection), exactly as in the source; the
`ttime > end` early exit lives in `buildLoop`. -/
def processTact (wbstate : WBConfig) (start : AwareDT) (st : TaskState) (tact : Item) :
    TaskState :=
  let ttime := dt_fromtimestamp tact.timestamp tzutc
  let st1 :=
    match tmap tact.transactionType with
    | some k => st.setField k (fsStep start (st.getField k) tact)
    | none => st
  let st2 :=
    if ttime.gtB start && truthyOpt tact.authorPHID then
      { st1 with actorset := insert tact.authorPHID st1.actorset }
    else st1
  let st3 :=
    if tact.transactionType = "projectcolumn" ∧ tact.oldValue ≠ some wbstate.feedback ∧
        tact.newValue = some wbstate.feedback then
      { st2 with waitingsince := some ttime }
    else st2
  if tact.transactionType = "projectcolumn" ∧ tact.oldValue ≠ some wbstate.indev ∧
      tact.newValue = some wbstate.indev then
    { st3 with workingsince := some ttime }
  else st3

/-- The reducer's walk: process transactions in order, stopping at the first
one whose time exceeds `end` (`if ttime > end: break`). -/
def buildLoop (wbstate : WBConfig) (start endT : AwareDT) :
    TaskState → List Item → TaskState
  | st, [] => st
  | st, tact :: rest =>
      if (dt_fromtimestamp tact.timestamp tzutc).gtB endT then st
      else buildLoop wbstate start endT (processTact wbstate start st tact) rest

/-- `build_taskstate_from_transactions`: the walk followed by the final
assignee fix-up (`if taskstate.get('assignee') and taskstate['assignee']['end']`).
The inner `none` branch of the match is a Python `KeyError` site that is
unreachable for states the walk produces ('end' is set whenever the dict is
nonempty). -/
def build_taskstate_from_transactions (transactions : List Item)
    (start endT : AwareDT) (config : WBConfig) : TaskState :=
  let st := buildLoop config start endT {} transactions
  if st.assignee.isSet then
    match st.assignee.endV with
    | some v => if truthyOpt v then { st with actorset := insert v st.actorset } else st
    | none => st
  else st

/-- Chronological order of a normalized feed (spec: timestamps are
monotonically non-decreasing across a task's log, ties allowed). -/
def sortedByTime (l : List Item) : Prop :=
  l.Pairwise (fun a b => a.timestamp ≤ b.timestamp)

/-! ### Basic lemmas about the datetime layer -/

@[simp]
theorem instant_fromtimestamp (ts off : Int) : (dt_fromtimestamp ts off).instant = ts := by
  simp [dt_fromtimestamp, AwareDT.instant]

theorem gtB_fromtimestamp (ts off : Int) (d : AwareDT) :
    (dt_fromtimestamp ts off).gtB d = decide (d.instant < ts) := by
  simp [AwareDT.gtB]

theorem geB_fromtimestamp (ts off : Int) (d : AwareDT) :
    (dt_fromtimestamp ts off).geB d = decide (d.instant ≤ ts) := by
  simp [AwareDT.geB]

theorem ltB_fromtimestamp (ts off : Int) (d : AwareDT) :
    (dt_fromtimestamp ts off).ltB d = decide (ts < d.instant) := by
  simp [AwareDT.ltB]

/-! ### Component lemmas for `setField`/`getField` -/

@[simp]
theorem setField_workingsince (st : TaskState) (k : FieldKey) (fs : FieldState) :
    (st.setField k fs).workingsince = st.workingsince := by
  cases k <;> rfl

@[simp]
theorem setField_waitingsince (st : TaskState) (k : FieldKey) (fs : FieldState) :
    (st.setField k fs).waitingsince = st.waitingsince := by
  cases k <;> rfl

@[simp]
theorem setField_actorset (st : TaskState) (k : FieldKey) (fs : FieldState) :
    (st.setField k fs).actorset = st.actorset := by
  cases k <;> rfl

theorem getField_setField (st : TaskState) (k k' : FieldKey) (fs : FieldState) :
    (st.setField k fs).getField k' = if k = k' then fs else st.getField k' := by
  cases k <;> cases k' <;> simp [TaskState.setField, TaskState.getField]

@[simp]
theorem getField_setActorset (st : TaskState) (x : Finset (Option String)) (k : FieldKey) :
    (TaskState.getField { st with actorset := x } k) = st.getField k := by
  cases k <;> rfl

/-! ### Component lemmas for one loop iteration -/

theorem processTact_workingsince (wb : WBConfig) (start : AwareDT) (st : TaskState) (t : Item) :
    (processTact wb start st t).workingsince =
      if t.transactionType = "projectcolumn" ∧ t.oldValue ≠ some wb.indev ∧
          t.newValue = some wb.indev then
        some (dt_fromtimestamp t.timestamp tzutc)
      else st.workingsince := by
  simp only [processTact]
  cases h : tmap t.transactionType <;> split_ifs <;> simp_all

theorem processTact_waitingsince (wb : WBConfig) (start : AwareDT) (st : TaskState) (t : Item) :
    (processTact wb start st t).waitingsince =
      if t.transactionType = "projectcolumn" ∧ t.oldValue ≠ some wb.feedback ∧
          t.newValue = some wb.feedback then
        some (dt_fromtimestamp t.timestamp tzutc)
      else st.waitingsince := by
  simp only [processTact]
  cases h : tmap t.transactionType <;> split_ifs <;> simp_all

theorem processTact_actorset (wb : WBConfig) (start : AwareDT) (st : TaskState) (t : Item) :
    (processTact wb start st t).actorset =
      if start.instant < t.timestamp ∧ truthyOpt t.authorPHID = true then
        insert t.authorPHID st.actorset
      else st.actorset := by
  simp only [processTact, gtB_fromtimestamp]
  cases h : tmap t.transactionType <;> split_ifs <;> simp_all

theorem processTact_getField (wb : WBConfig) (start : AwareDT) (st : TaskState) (t : Item)
    (k : FieldKey) :
    (processTact wb start st t).getField k =
      if tmap t.transactionType = some k then fsStep start (st.getField k) t
      else st.getField k := by
  simp only [processTact]
  cases h : tmap t.transactionType with
  | none =>
      simp only [h]
      split_ifs <;> cases k <;>
        simp_all [tmap, TaskState.getField, TaskState.setField]
  | some k' =>
      simp only [h]
      split_ifs <;> cases k <;> cases k' <;>
        simp_all [tmap, TaskState.getField, TaskState.setField]

/-! ### The walk as a fold over the processed prefix -/

theorem buildLoop_eq_foldl (wb : WBConfig) (start endT : AwareDT) (st : TaskState)
    (l : List Item) :
    buildLoop wb start endT st l =
      (l.takeWhile fun t => decide (t.timestamp ≤ endT.instant)).foldl
        (processTact wb start) st := by
  induction l generalizing st with
  | nil => rfl
  | cons t rest ih =>
      rw [buildLoop, List.takeWhile_cons, gtB_fromtimestamp]
      by_cases h : t.timestamp ≤ endT.instant
      · have hg : ¬ endT.instant < t.timestamp := by omega
        simp [h, hg, ih]
      · have hg : endT.instant < t.timestamp := by omega
        simp [h, hg]

/-! ### Fold-level characterizations of the walk's components -/

theorem foldl_workingsince (wb : WBConfig) (start : AwareDT) (l : List Item) (st : TaskState) :
    (l.foldl (processTact wb start) st).workingsince =
      match (l.filter fun t => decide (t.transactionType = "projectcolumn" ∧
          t.oldValue ≠ some wb.indev ∧ t.newValue = some wb.indev)).getLast? with
      | some ev => some (dt_fromtimestamp ev.timestamp tzutc)
      | none => st.workingsince := by
  induction l generalizing st with
  | nil => rfl
  | cons t rest ih =>
      rw [List.foldl_cons, ih, processTact_workingsince, List.filter_cons]
      by_cases h : t.transactionType = "projectcolumn" ∧ t.oldValue ≠ some wb.indev ∧
          t.newValue = some wb.indev
      · rw [if_pos h, if_pos (decide_eq_true h), List.getLast?_cons]
        cases hfl : (rest.filter fun t => decide (t.transactionType = "projectcolumn" ∧
            t.oldValue ≠ some wb.indev ∧ t.newValue = some wb.indev)).getLast? <;>
          simp [hfl]
      · rw [if_neg h, if_neg (fun hc => h (of_decide_eq_true hc))]

theorem foldl_waitingsince (wb : WBConfig) (start : AwareDT) (l : List Item) (st : TaskState) :
    (l.foldl (processTact wb start) st).waitingsince =
      match (l.filter fun t => decide (t.transactionType = "projectcolumn" ∧
          t.oldValue ≠ some wb.feedback ∧ t.newValue = some wb.feedback)).getLast? with
      | some ev => some (dt_fromtimestamp ev.timestamp tzutc)
      | none => st.waitingsince := by
  induction l generalizing st with
  | nil => rfl
  | cons t rest ih =>
      rw [List.foldl_cons, ih, processTact_waitingsince, List.filter_cons]
      by_cases h : t.transactionType = "projectcolumn" ∧ t.oldValue ≠ some wb.feedback ∧
          t.newValue = some wb.feedback
      · rw [if_pos h, if_pos (decide_eq_true h), List.getLast?_cons]
        cases hfl : (rest.filter fun t => decide (t.transactionType = "projectcolumn" ∧
            t.oldValue ≠ some wb.feedback ∧ t.newValue = some wb.feedback)).getLast? <;>
          simp [hfl]
      · rw [if_neg h, if_neg (fun hc => h (of_decide_eq_true hc))]

theorem mem_foldl_actorset (wb : WBConfig) (start : AwareDT) (l : List Item) (st : TaskState)
    (a : Option String) :
    a ∈ (l.foldl (processTact wb start) st).actorset ↔
      a ∈ st.actorset ∨ ∃ t ∈ l, start.instant < t.timestamp ∧
        truthyOpt t.authorPHID = true ∧ t.authorPHID = a := by
  induction l generalizing st with
  | nil => simp
  | cons t rest ih =>
      rw [List.foldl_cons, ih, processTact_actorset]
      by_cases h : start.instant < t.timestamp ∧ truthyOpt t.authorPHID = true
      · rw [if_pos h]
        simp only [Finset.mem_insert, List.mem_cons]
        constructor
        · rintro ((rfl | hm) | ⟨x, hx, hxc⟩)
          · exact Or.inr ⟨t, Or.inl rfl, h.1, h.2, rfl⟩
          · exact Or.inl hm
          · exact Or.inr ⟨x, Or.inr hx, hxc⟩
        · rintro (hm | ⟨x, (rfl | hx), hxc⟩)
          · exact Or.inl (Or.inr hm)
          · exact Or.inl (Or.inl hxc.2.2.symm)
          · exact Or.inr ⟨x, hx, hxc⟩
      · rw [if_neg h]
        simp only [List.mem_cons]
        constructor
        · rintro (hm | ⟨x, hx, hxc⟩)
          · exact Or.inl hm
          · exact Or.inr ⟨x, Or.inr hx, hxc⟩
        · rintro (hm | ⟨x, (rfl | hx), hxc⟩)
          · exact Or.inl hm
          · exact absurd ⟨hxc.1, hxc.2.1⟩ h
          · exact Or.inr ⟨x, hx, hxc⟩

theorem foldl_getField (wb : WBConfig) (start : AwareDT) (l : List Item) (st : TaskState)
    (k : FieldKey) :
    (l.foldl (processTact wb start) st).getField k =
      (l.filter fun t => decide (tmap t.transactionType = some k)).foldl (fsStep start)
        (st.getField k) := by
  induction l generalizing st with
  | nil => rfl
  | cons t rest ih =>
      rw [List.foldl_cons, ih, List.filter_cons, processTact_getField]
      by_cases h : tmap t.transactionType = some k <;> simp [h]

/-! ### The per-field automaton -/

theorem fsStep_of_isSet (start : AwareDT) (fs : FieldState) (t : Item)
    (h : fs.isSet = true) :
    fsStep start fs t =
      { startV := if t.timestamp < start.instant then some t.newValue else fs.startV
        endV := some t.newValue } := by
  by_cases hts : t.timestamp < start.instant <;>
    simp [fsStep, h, hts, geB_fromtimestamp, ltB_fromtimestamp]

theorem fsFold_set (start : AwareDT) (l : List Item) (fs : FieldState)
    (h : fs.isSet = true) :
    l.foldl (fsStep start) fs =
      { startV := match (l.filter fun t => decide (t.timestamp < start.instant)).getLast? with
                  | some ev => some ev.newValue
                  | none => fs.startV
        endV := match l.getLast? with
                | some ev => some ev.newValue
                | none => fs.endV } := by
  induction l generalizing fs with
  | nil => simp
  | cons t rest ih =>
      rw [List.foldl_cons, fsStep_of_isSet start fs t h,
        ih _ (by simp [FieldState.isSet]), List.filter_cons, List.getLast?_cons]
      by_cases hts : t.timestamp < start.instant
      · rw [if_pos hts, if_pos (decide_eq_true hts), List.getLast?_cons]
        cases hfl : (rest.filter fun t => decide (t.timestamp < start.instant)).getLast? <;>
          cases hrl : rest.getLast? <;> simp [hfl, hrl]
      · rw [if_neg hts, if_neg (fun hc => hts (of_decide_eq_true hc))]
        cases hrl : rest.getLast? <;> simp [hrl]

theorem fsFold_split (start : AwareDT) (A B : List Item)
    (hA : ∀ t ∈ A, t.timestamp < start.instant)
    (hB : ∀ t ∈ B, start.instant ≤ t.timestamp) :
    (A ++ B).foldl (fsStep start) {} =
      { startV := match A.getLast? with
                  | some a => some a.newValue
                  | none => match B.head? with
                            | some b => some b.oldValue
                            | none => none
        endV := match (A ++ B).getLast? with
                | some ev => some ev.newValue
                | none => none } := by
  cases A with
  | nil =>
      cases B with
      | nil => rfl
      | cons b B' =>
          have hb : start.instant ≤ b.timestamp := hB b (List.mem_cons_self b B')
          have hstep : fsStep start {} b =
              { startV := some b.oldValue, endV := some b.newValue } := by
            simp [fsStep, FieldState.isSet, geB_fromtimestamp, ltB_fromtimestamp, hb]
          rw [List.nil_append, List.foldl_cons, hstep, fsFold_set start B' _ (by rfl)]
          have hflB : (B'.filter fun t => decide (t.timestamp < start.instant)) = [] := by
            refine List.filter_eq_nil_iff.mpr fun x hx => by
              have := hB x (List.mem_cons_of_mem b hx)
              simp only [decide_eq_true_eq]
              omega
          rw [hflB, List.getLast?_cons]
          cases hrl : B'.getLast? <;> simp [hrl]
  | cons a A' =>
      have ha : a.timestamp < start.instant := hA a (List.mem_cons_self a A')
      have ha' : ¬ start.instant ≤ a.timestamp := by omega
      have hstep : fsStep start {} a =
          { startV := some a.newValue, endV := some a.newValue } := by
        simp [fsStep, FieldState.isSet, geB_fromtimestamp, ltB_fromtimestamp, ha, ha']
      rw [List.cons_append, List.foldl_cons, hstep, fsFold_set start (A' ++ B) _ (by rfl)]
      have hfl : ((A' ++ B).filter fun t => decide (t.timestamp < start.instant)) = A' := by
        rw [List.filter_append]
        have h1 : (A'.filter fun t => decide (t.timestamp < start.instant)) = A' :=
          List.filter_eq_self.mpr fun x hx => by
            have := hA x (List.mem_cons_of_mem a hx)
            simpa using this
        have h2 : (B.filter fun t => decide (t.timestamp < start.instant)) = [] :=
          List.filter_eq_nil_iff.mpr fun x hx => by
            have := hB x hx
            simp only [decide_eq_true_eq]
            omega
        rw [h1, h2, List.append_nil]
      rw [hfl, List.getLast?_cons, List.getLast?_cons]
      cases hal : A'.getLast? <;> cases hl : (A' ++ B).getLast? <;> simp [hal, hl]

/-! ### Sorted lists: takeWhile/dropWhile coincide with filter -/

theorem sorted_takeWhile_eq_filter (p : Item → Bool)
    (hp : ∀ a b : Item, a.timestamp ≤ b.timestamp → p b = true → p a = true)
    (l : List Item) (hl : sortedByTime l) : l.takeWhile p = l.filter p := by
  induction l with
  | nil => rfl
  | cons t rest ih =>
      rcases List.pairwise_cons.mp hl with ⟨hhead, htail⟩
      rw [List.takeWhile_cons, List.filter_cons]
      by_cases h : p t = true
      · simp [h, ih htail]
      · have hnil : rest.filter p = [] := List.filter_eq_nil_iff.mpr fun b hb hpb =>
          h (hp t b (hhead b hb) hpb)
        simp [h, hnil]

theorem sorted_dropWhile_eq_filter (p : Item → Bool)
    (hp : ∀ a b : Item, a.timestamp ≤ b.timestamp → p b = true → p a = true)
    (l : List Item) (hl : sortedByTime l) : l.dropWhile p = l.filter (fun x => !(p x)) := by
  induction l with
  | nil => rfl
  | cons t rest ih =>
      rcases List.pairwise_cons.mp hl with ⟨hhead, htail⟩
      rw [List.dropWhile_cons, List.filter_cons]
      by_cases h : p t = true
      · simp [h, ih htail]
      · have hall : rest.filter (fun x => !(p x)) = rest :=
          List.filter_eq_self.mpr fun b hb => by
            simp only [Bool.not_eq_true']
            by_contra hc
            exact h (hp t b (hhead b hb) (by simpa using hc))
        simp [h, hall]

theorem sortedByTime_filter (l : List Item) (hl : sortedByTime l) (p : Item → Bool) :
    sortedByTime (l.filter p) :=
  List.Pairwise.sublist (List.filter_sublist l) hl

/-! ### Components of the final reducer result -/

theorem build_getField (l : List Item) (start endT : AwareDT) (cfg : WBConfig) (k : FieldKey) :
    (build_taskstate_from_transactions l start endT cfg).getField k =
      (buildLoop cfg start endT {} l).getField k := by
  simp only [build_taskstate_from_transactions]
  split
  · split
    · split
      · cases k <;> rfl
      · rfl
    · rfl
  · rfl

theorem build_workingsince (l : List Item) (start endT : AwareDT) (cfg : WBConfig) :
    (build_taskstate_from_transactions l start endT cfg).workingsince =
      (buildLoop cfg start endT {} l).workingsince := by
  simp only [build_taskstate_from_transactions]
  split
  · split
    · split <;> rfl
    · rfl
  · rfl

theorem build_waitingsince (l : List Item) (start endT : AwareDT) (cfg : WBConfig) :
    (build_taskstate_from_transactions l start endT cfg).waitingsince =
      (buildLoop cfg start endT {} l).waitingsince := by
  simp only [build_taskstate_from_transactions]
  split
  · split
    · split <;> rfl
    · rfl
  · rfl

@[simp]
theorem getField_default (k : FieldKey) : (({} : TaskState)).getField k = {} := by
  cases k <;> rfl

/-- Composing the processed-prefix filter with a further filter. -/
theorem filter_le_filter (l : List Item) (P : Item → Prop) [DecidablePred P] (c : Int) :
    ((l.filter fun t => decide (t.timestamp ≤ c)).filter fun t => decide (P t)) =
      l.filter fun t => decide (P t ∧ t.timestamp ≤ c) := by
  rw [List.filter_filter]
  exact List.filter_congr fun x _ => by
    by_cases h1 : P x <;> by_cases h2 : x.timestamp ≤ c <;> simp [h1, h2]

/-- The sorted processed prefix is the `timestamp ≤ end` filter. -/
theorem sorted_takeWhile_le (l : List Item) (hl : sortedByTime l) (c : Int) :
    l.takeWhile (fun t => decide (t.timestamp ≤ c)) =
      l.filter (fun t => decide (t.timestamp ≤ c)) :=
  sorted_takeWhile_eq_filter _ (fun a b hab hb => by
    simp only [decide_eq_true_eq] at hb ⊢
    omega) l hl

/-- Full characterization of one tracked field of the reducer's result, for a
chronologically ordered feed: `startV` is the `newValue` of the last processed
event of the field's kind before `start` (falling back to the `oldValue` of
the first processed event of the kind at/after `start`), and `endV` is the
`newValue` of the last processed event of the kind. -/
theorem build_getField_split (l : List Item) (start endT : AwareDT) (cfg : WBConfig)
    (k : FieldKey) (hl : sortedByTime l) :
    (build_taskstate_from_transactions l start endT cfg).getField k =
      { startV :=
          match (l.filter fun t => decide ((tmap t.transactionType = some k ∧
              t.timestamp ≤ endT.instant) ∧ t.timestamp < start.instant)).getLast? with
          | some a => some a.newValue
          | none =>
            match (l.filter fun t => decide ((tmap t.transactionType = some k ∧
                t.timestamp ≤ endT.instant) ∧ start.instant ≤ t.timestamp)).head? with
            | some b => some b.oldValue
            | none => none
        endV :=
          match (l.filter fun t => decide (tmap t.transactionType = some k ∧
              t.timestamp ≤ endT.instant)).getLast? with
          | some ev => some ev.newValue
          | none => none } := by
  have hLkdef : ((l.filter fun t => decide (t.timestamp ≤ endT.instant)).filter
      fun t => decide (tmap t.transactionType = some k)) =
      l.filter (fun t => decide (tmap t.transactionType = some k ∧
        t.timestamp ≤ endT.instant)) :=
    filter_le_filter l _ _
  set Lk := l.filter (fun t => decide (tmap t.transactionType = some k ∧
      t.timestamp ≤ endT.instant)) with hLk
  have hsortLk : sortedByTime Lk := sortedByTime_filter l hl _
  set A := Lk.takeWhile (fun t => decide (t.timestamp < start.instant)) with hdefA
  set B := Lk.dropWhile (fun t => decide (t.timestamp < start.instant)) with hdefB
  have hAB : Lk = A ++ B := (List.takeWhile_append_dropWhile _ _).symm
  have hA : ∀ t ∈ A, t.timestamp < start.instant := by
    intro t ht
    rw [hdefA] at ht
    have := List.mem_takeWhile_imp ht
    simpa using this
  have hBfil : B = Lk.filter (fun x => !(decide (x.timestamp < start.instant))) := by
    rw [hdefB]
    exact sorted_dropWhile_eq_filter _ (fun a b hab hb => by
      simp only [decide_eq_true_eq] at hb ⊢
      omega) Lk hsortLk
  have hB : ∀ t ∈ B, start.instant ≤ t.timestamp := by
    intro t ht
    rw [hBfil] at ht
    have h2 := (List.mem_filter.mp ht).2
    simp only [Bool.not_eq_true', decide_eq_false_iff_not, not_lt] at h2
    exact h2
  have hAfil : A = l.filter (fun t => decide ((tmap t.transactionType = some k ∧
      t.timestamp ≤ endT.instant) ∧ t.timestamp < start.instant)) := by
    rw [hdefA, sorted_takeWhile_eq_filter _ (fun a b hab hb => by
        simp only [decide_eq_true_eq] at hb ⊢
        omega) Lk hsortLk, hLk, List.filter_filter]
    exact List.filter_congr fun x _ => by
      by_cases h1 : tmap x.transactionType = some k <;>
        by_cases h2 : x.timestamp < start.instant <;>
        by_cases h3 : x.timestamp ≤ endT.instant <;>
        simp [h1, h2, h3]
  have hBfil2 : B = l.filter (fun t => decide ((tmap t.transactionType = some k ∧
      t.timestamp ≤ endT.instant) ∧ start.instant ≤ t.timestamp)) := by
    rw [hBfil, hLk, List.filter_filter]
    exact List.filter_congr fun x _ => by
      by_cases h1 : tmap x.transactionType = some k <;>
        by_cases h2 : x.timestamp < start.instant <;>
        by_cases h3 : x.timestamp ≤ endT.instant <;>
        simp [h1, h2, h3] <;> omega
  rw [build_getField, buildLoop_eq_foldl, sorted_takeWhile_le l hl, foldl_getField,
    getField_default, hLkdef, hAB, fsFold_split start A B hA hB, ← hAB, ← hAfil,
    ← hBfil2]

/-- Shared helper: the assignee fix-up at the end of the reducer either leaves
the actor set alone (no truthy assignee end value) or inserts the truthy
assignee end value. -/
theorem build_actorset_cases (l : List Item) (start endT : AwareDT) (cfg : WBConfig) :
    ((buildLoop cfg start endT {} l).assignee.endV = none ∨
        (∃ v, (buildLoop cfg start endT {} l).assignee.endV = some v ∧
          truthyOpt v = false)) ∧
      (build_taskstate_from_transactions l start endT cfg).actorset =
        (buildLoop cfg start endT {} l).actorset ∨
    (∃ v, (buildLoop cfg start endT {} l).assignee.endV = some v ∧ truthyOpt v = true ∧
      (build_taskstate_from_transactions l start endT cfg).actorset =
        insert v (buildLoop cfg start endT {} l).actorset) := by
  simp only [build_taskstate_from_transactions]
  by_cases h1 : (buildLoop cfg start endT {} l).assignee.isSet = true
  · rw [if_pos h1]
    split
    · rename_i v heq
      by_cases htv : truthyOpt v = true
      · rw [if_pos htv]
        exact Or.inr ⟨v, heq, htv, rfl⟩
      · rw [if_neg htv]
        exact Or.inl ⟨Or.inr ⟨v, heq, by revert htv; cases truthyOpt v <;> simp⟩, rfl⟩
    · rename_i heq
      exact Or.inl ⟨Or.inl heq, rfl⟩
  · rw [if_neg h1]
    have h2 : (buildLoop cfg start endT {} l).assignee.endV = none := by
      rcases hvv : (buildLoop cfg start endT {} l).assignee.endV with _ | v
      · rfl
      · exact absurd (by simp [FieldState.isSet, hvv]) h1
    exact Or.inl ⟨Or.inl h2, rfl⟩

/-- Shared helper: members of the walk's actor set are authors of qualifying
events. -/
theorem mem_loop_actorset (l : List Item) (start endT : AwareDT) (cfg : WBConfig)
    (x : Option String) :
    x ∈ (buildLoop cfg start endT {} l).actorset ↔
      ∃ t ∈ l.takeWhile (fun t => decide (t.timestamp ≤ endT.instant)),
        start.instant < t.timestamp ∧ truthyOpt t.authorPHID = true ∧
        t.authorPHID = x := by
  rw [buildLoop_eq_foldl, mem_foldl_actorset]
  constructor
  · rintro (hmem | h)
    · exact absurd hmem (Finset.not_mem_empty x)
    · exact h
  · exact Or.inr

/-- Shared helper: every member of the reducer's actor set passes the
truthiness guard under which it was inserted. -/
theorem actorset_truthy (l : List Item) (start endT : AwareDT) (cfg : WBConfig)
    (a : Option String)
    (h : a ∈ (build_taskstate_from_transactions l start endT cfg).actorset) :
    truthyOpt a = true := by
  have hloop : ∀ x : Option String,
      x ∈ (buildLoop cfg start endT {} l).actorset → truthyOpt x = true := by
    intro x hx
    rcases (mem_loop_actorset l start endT cfg x).mp hx with ⟨t, _, _, ht, rfl⟩
    exact ht
  rcases build_actorset_cases l start endT cfg with ⟨_, hcase⟩ | ⟨v, _, htv, hcase⟩
  · rw [hcase] at h
    exact hloop a h
  · rw [hcase] at h
    rcases Finset.mem_insert.mp h with rfl | h2
    · exact htv
    · exact hloop a h2

/-- Auxiliary: the milestone result is `none` exactly when no qualifying event
exists. -/
theorem match_milestone_eq_none (L : List Item) (z : Option AwareDT) (hz : z = none) :
    (match L.getLast? with
     | some ev => some (dt_fromtimestamp ev.timestamp tzutc)
     | none => z) = none ↔ L = [] := by
  cases hg : L.getLast? with
  | none => exact iff_of_true hz (List.getLast?_eq_none_iff.mp hg)
  | some ev =>
      constructor
      · intro hc
        exact Option.noConfusion hc
      · intro hc
        rw [hc] at hg
        simp at hg

/-! ### Claim C1 -/

/-- A column move into the `indev` milestone column, occurring at timestamp 10. -/
def c1ev : Item :=
  ⟨"projectcolumn", 10, some "PHID-USER-aaaa", some global_config.todo,
    some global_config.indev⟩

/-- C1, counterexample: the claim says milestone detection scans the *entire*
event log, "not bounded by the interval's start or end".  Here the log's only
event is a qualifying entry into the `indev` destination at timestamp 10
(witnessed by the last three conjuncts), and the window ends at instant 5;
the claim therefore predicts `workingsince = some` of timestamp 10, but the
reducer stops at the first event beyond `end` and records nothing. -/
theorem c1_counterexample :
    (build_taskstate_from_transactions [c1ev] ⟨0, 0⟩ ⟨5, 0⟩ global_config).workingsince =
        none ∧
      c1ev.transactionType = "projectcolumn" ∧
      c1ev.newValue = some global_config.indev ∧
      c1ev.oldValue ≠ some global_config.indev := by
  refine ⟨rfl, rfl, rfl, ?_⟩
  decide

/-- C1 (amended): for a chronologically ordered log, each configured milestone
records the timestamp of the most recent column-move event entering its
destination (`new_value` equals the destination, `old_value` differs)
**among the events with timestamp at most `end`** — last-entry-wins and not
bounded by `start`, but events strictly beyond `end` are never scanned. -/
theorem c1_milestone_last_entry (l : List Item) (start endT : AwareDT) (cfg : WBConfig)
    (hl : sortedByTime l) :
    (build_taskstate_from_transactions l start endT cfg).workingsince =
      (match (l.filter fun t => decide ((t.transactionType = "projectcolumn" ∧
          t.oldValue ≠ some cfg.indev ∧ t.newValue = some cfg.indev) ∧
          t.timestamp ≤ endT.instant)).getLast? with
       | some ev => some (dt_fromtimestamp ev.timestamp tzutc)
       | none => none) ∧
    (build_taskstate_from_transactions l start endT cfg).waitingsince =
      (match (l.filter fun t => decide ((t.transactionType = "projectcolumn" ∧
          t.oldValue ≠ some cfg.feedback ∧ t.newValue = some cfg.feedback) ∧
          t.timestamp ≤ endT.instant)).getLast? with
       | some ev => some (dt_fromtimestamp ev.timestamp tzutc)
       | none => none) := by
  constructor
  · rw [build_workingsince, buildLoop_eq_foldl, sorted_takeWhile_le l hl,
      foldl_workingsince, filter_le_filter]
  · rw [build_waitingsince, buildLoop_eq_foldl, sorted_takeWhile_le l hl,
      foldl_waitingsince, filter_le_filter]

/-- Witness for C1's amended theorem at a concrete input: a single entry into
`indev` at timestamp 10 inside the window `[0, 100]` is recorded. -/
theorem c1_witness :
    (build_taskstate_from_transactions [c1ev] ⟨0, 0⟩ ⟨100, 0⟩ global_config).workingsince =
      some (dt_fromtimestamp 10 tzutc) := by
  have h := c1_milestone_last_entry [c1ev] ⟨0, 0⟩ ⟨100, 0⟩ global_config
    (by simp [sortedByTime])
  rw [h.1]
  rfl

/-! ### Claim C5 -/

/-- A column move into the `feedback` column at timestamp 10. -/
def c5ev1 : Item :=
  ⟨"projectcolumn", 10, some "PHID-USER-aaaa", some global_config.todo,
    some global_config.feedback⟩

/-- A column move out of the `feedback` column (into `done`) at timestamp 20. -/
def c5ev2 : Item :=
  ⟨"projectcolumn", 20, some "PHID-USER-aaaa", some global_config.feedback,
    some global_config.done⟩

/-- C5, counterexample: the claim says `milestone_since[name]` is absent "if
the task last left" the destination.  Here the task enters `feedback` at
timestamp 10 and leaves it at timestamp 20 (the log's last event, inside the
window), yet the reducer still reports `waitingsince` = timestamp 10: leaving
the destination never clears the recorded entry. -/
theorem c5_counterexample :
    (build_taskstate_from_transactions [c5ev1, c5ev2] ⟨0, 0⟩ ⟨100, 0⟩
        global_config).waitingsince = some (dt_fromtimestamp 10 tzutc) ∧
      c5ev2.oldValue = some global_config.feedback ∧
      c5ev2.newValue ≠ some global_config.feedback ∧
      c5ev1.timestamp < c5ev2.timestamp := by
  refine ⟨rfl, rfl, ?_, ?_⟩ <;> decide

/-- C5 (amended): for a chronologically ordered log, the milestone timestamp
is absent if and only if the task never entered the destination among the
events with timestamp at most `end`; a later column-move out of the
destination does not remove it (the most recent entry persists). -/
theorem c5_milestone_absent_iff (l : List Item) (start endT : AwareDT) (cfg : WBConfig)
    (hl : sortedByTime l) :
    ((build_taskstate_from_transactions l start endT cfg).waitingsince = none ↔
      (l.filter fun t => decide ((t.transactionType = "projectcolumn" ∧
          t.oldValue ≠ some cfg.feedback ∧ t.newValue = some cfg.feedback) ∧
          t.timestamp ≤ endT.instant)) = []) ∧
    ((build_taskstate_from_transactions l start endT cfg).workingsince = none ↔
      (l.filter fun t => decide ((t.transactionType = "projectcolumn" ∧
          t.oldValue ≠ some cfg.indev ∧ t.newValue = some cfg.indev) ∧
          t.timestamp ≤ endT.instant)) = []) := by
  constructor
  · rw [build_waitingsince, buildLoop_eq_foldl, sorted_takeWhile_le l hl,
      foldl_waitingsince, filter_le_filter]
    exact match_milestone_eq_none _ _ rfl
  · rw [build_workingsince, buildLoop_eq_foldl, sorted_takeWhile_le l hl,
      foldl_workingsince, filter_le_filter]
    exact match_milestone_eq_none _ _ rfl

/-- Witness for C5's amended theorem at a concrete input: an empty log has no
recorded milestone. -/
theorem c5_witness :
    (build_taskstate_from_transactions [] ⟨0, 0⟩ ⟨100, 0⟩ global_config).waitingsince =
      none := by
  have h := c5_milestone_absent_iff [] ⟨0, 0⟩ ⟨100, 0⟩ global_config
    (by simp [sortedByTime])
  exact h.1.mpr rfl

/-! ### Claim C2 -/

/-- C2: for a chronologically ordered log and a window with `start ≤ end`:
(i) every pre-start event of a tracked field's kind overwrites that field's
`start_value` with its `new_value`, so after the walk `start_value` equals the
`new_value` of the last event of the kind with timestamp before `start`
(in particular, of the later of two such events); and (ii) if no event of the
kind precedes `start`, the first processed event of the kind at/after `start`
— the field slot still being unset — writes its `old_value` into
`start_value`. -/
theorem c2_start_value_boundary (l : List Item) (start endT : AwareDT) (cfg : WBConfig)
    (k : FieldKey) (hl : sortedByTime l) (hse : start.instant ≤ endT.instant) :
    (∀ ev : Item, (l.filter fun t => decide (tmap t.transactionType = some k ∧
        t.timestamp < start.instant)).getLast? = some ev →
      ((build_taskstate_from_transactions l start endT cfg).getField k).startV =
        some ev.newValue) ∧
    ((l.filter fun t => decide (tmap t.transactionType = some k ∧
        t.timestamp < start.instant)) = [] →
      ∀ ev : Item, (l.filter fun t => decide ((tmap t.transactionType = some k ∧
          t.timestamp ≤ endT.instant) ∧ start.instant ≤ t.timestamp)).head? = some ev →
      ((build_taskstate_from_transactions l start endT cfg).getField k).startV =
        some ev.oldValue) := by
  have hchar := build_getField_split l start endT cfg k hl
  have hcong : (l.filter fun t => decide ((tmap t.transactionType = some k ∧
      t.timestamp ≤ endT.instant) ∧ t.timestamp < start.instant)) =
      l.filter (fun t => decide (tmap t.transactionType = some k ∧
        t.timestamp < start.instant)) :=
    List.filter_congr fun x _ => by
      by_cases h1 : tmap x.transactionType = some k <;>
        by_cases h2 : x.timestamp < start.instant <;>
        by_cases h3 : x.timestamp ≤ endT.instant <;>
        simp [h1, h2, h3] <;> omega
  rw [hcong] at hchar
  constructor
  · intro ev hev
    rw [hchar, hev]
  · intro hnil ev hev
    rw [hchar, hnil, List.getLast?_nil, hev]

/-- A status change at timestamp 3, before the window. -/
def c2ev1 : Item := ⟨"status", 3, some "PHID-USER-u1", some "open", some "stalled"⟩

/-- A later status change at timestamp 5, still before the window. -/
def c2ev2 : Item := ⟨"status", 5, some "PHID-USER-u2", some "stalled", some "resolved"⟩

/-- Witness for C2 at a concrete input: two status events at timestamps
3 < 5 < start = 10; the reducer's `start_value` is the `new_value` of the
later one. -/
theorem c2_witness :
    ((build_taskstate_from_transactions [c2ev1, c2ev2] ⟨10, 0⟩ ⟨100, 0⟩
        global_config).getField .status).startV = some (some "resolved") := by
  have h := c2_start_value_boundary [c2ev1, c2ev2] ⟨10, 0⟩ ⟨100, 0⟩ global_config .status
    (by simp [sortedByTime, c2ev1, c2ev2]) (by decide)
  exact h.1 c2ev2 (by rfl)

/-! ### Claim C3 -/

/-- C3: for a chronologically ordered log: (i) each tracked field's
`end_value` equals the `new_value` of the last event of the field's kind with
timestamp at most `end`; (ii) if no such event exists, `end_value` is empty
(the key is never set); and (iii) events with timestamp strictly greater than
`end` never affect the result: the reducer computes the same state on the log
restricted to timestamps at most `end`. -/
theorem c3_end_value_recency (l : List Item) (start endT : AwareDT) (cfg : WBConfig)
    (hl : sortedByTime l) :
    (∀ (k : FieldKey) (ev : Item),
      (l.filter fun t => decide (tmap t.transactionType = some k ∧
        t.timestamp ≤ endT.instant)).getLast? = some ev →
      ((build_taskstate_from_transactions l start endT cfg).getField k).endV =
        some ev.newValue) ∧
    (∀ k : FieldKey,
      (l.filter fun t => decide (tmap t.transactionType = some k ∧
        t.timestamp ≤ endT.instant)) = [] →
      ((build_taskstate_from_transactions l start endT cfg).getField k).endV = none) ∧
    build_taskstate_from_transactions l start endT cfg =
      build_taskstate_from_transactions
        (l.filter fun t => decide (t.timestamp ≤ endT.instant)) start endT cfg := by
  refine ⟨?_, ?_, ?_⟩
  · intro k ev hev
    rw [build_getField_split l start endT cfg k hl, hev]
  · intro k hnil
    rw [build_getField_split l start endT cfg k hl, hnil, List.getLast?_nil]
  · have hle : (l.filter fun t => decide (t.timestamp ≤ endT.instant)).takeWhile
        (fun t => decide (t.timestamp ≤ endT.instant)) =
        l.filter (fun t => decide (t.timestamp ≤ endT.instant)) := by
      rw [sorted_takeWhile_le _ (sortedByTime_filter l hl _), List.filter_filter]
      exact List.filter_congr fun x _ => by
        by_cases h : x.timestamp ≤ endT.instant <;> simp [h]
    have hloop : buildLoop cfg start endT {} l =
        buildLoop cfg start endT {}
          (l.filter fun t => decide (t.timestamp ≤ endT.instant)) := by
      rw [buildLoop_eq_foldl, buildLoop_eq_foldl, sorted_takeWhile_le l hl, hle]
    simp only [build_taskstate_from_transactions]
    rw [hloop]

/-- A title change at timestamp 7, inside the window. -/
def c3ev : Item := ⟨"title", 7, some "PHID-USER-u3", some "old title", some "new title"⟩

/-- Witness for C3 at a concrete input: the single processed title event's
`new_value` becomes the field's `end_value`. -/
theorem c3_witness :
    ((build_taskstate_from_transactions [c3ev] ⟨0, 0⟩ ⟨50, 0⟩ global_config).getField
      .title).endV = some (some "new title") := by
  have h := c3_end_value_recency [c3ev] ⟨0, 0⟩ ⟨50, 0⟩ global_config
    (by simp [sortedByTime])
  exact h.1 .title c3ev (by rfl)

/-! ### Claim C4 -/

/-- C4: membership in the reducer's actor set, for a chronologically ordered
log: an identity is in `actor_set` iff it authored a processed event with
timestamp *strictly* greater than `start` (an event exactly at `start` never
contributes) and a non-empty actor reference, or it is the non-empty
end-of-window assignee (which is added even when it authored no qualifying
event). -/
theorem c4_actor_boundary (l : List Item) (start endT : AwareDT) (cfg : WBConfig)
    (hl : sortedByTime l) (a : Option String) :
    a ∈ (build_taskstate_from_transactions l start endT cfg).actorset ↔
      ((∃ t ∈ l, start.instant < t.timestamp ∧ t.timestamp ≤ endT.instant ∧
          truthyOpt t.authorPHID = true ∧ t.authorPHID = a) ∨
        (∃ v, ((build_taskstate_from_transactions l start endT cfg).getField
            .assignee).endV = some v ∧ truthyOpt v = true ∧ a = v)) := by
  have hmem : ∀ x : Option String,
      x ∈ (buildLoop cfg start endT {} l).actorset ↔
        ∃ t ∈ l, start.instant < t.timestamp ∧ t.timestamp ≤ endT.instant ∧
          truthyOpt t.authorPHID = true ∧ t.authorPHID = x := by
    intro x
    rw [mem_loop_actorset, sorted_takeWhile_le l hl]
    constructor
    · rintro ⟨t, htmem, h1, h2, h3⟩
      have hf := List.mem_filter.mp htmem
      exact ⟨t, hf.1, h1, by simpa using hf.2, h2, h3⟩
    · rintro ⟨t, htmem, h1, h2, h3, h4⟩
      exact ⟨t, List.mem_filter.mpr ⟨htmem, by simpa using h2⟩, h1, h3, h4⟩
  have hga : (build_taskstate_from_transactions l start endT cfg).getField .assignee =
      (buildLoop cfg start endT {} l).assignee :=
    build_getField l start endT cfg .assignee
  rcases build_actorset_cases l start endT cfg with ⟨hnone, hcase⟩ | ⟨v, hv, htv, hcase⟩
  · rw [hcase, hmem a]
    have hsec : ¬ ∃ v, ((build_taskstate_from_transactions l start endT cfg).getField
        .assignee).endV = some v ∧ truthyOpt v = true ∧ a = v := by
      rcases hnone with hn | ⟨v, hv, hfv⟩
      · rintro ⟨v', hv', _, _⟩
        rw [hga, hn] at hv'
        cases hv'
      · rintro ⟨v', hv', htv', _⟩
        rw [hga, hv] at hv'
        injection hv' with h
        simp [← h, hfv] at htv'
    constructor
    · exact fun hfst => Or.inl hfst
    · rintro (hfst | hsec')
      · exact hfst
      · exact absurd hsec' hsec
  · rw [hcase, Finset.mem_insert, hmem a]
    constructor
    · rintro (heq | hfst)
      · exact Or.inr ⟨v, by rw [hga, hv], htv, heq⟩
      · exact Or.inl hfst
    · rintro (hfst | ⟨v', hv', htv', rfl⟩)
      · exact Or.inr hfst
      · rw [hga, hv] at hv'
        injection hv' with h
        exact Or.inl h.symm

/-- An event authored strictly after `start`. -/
def c4ev : Item := ⟨"title", 11, some "PHID-USER-w4", some "a", some "b"⟩

/-- Witness for C4 at a concrete input: the author of a processed event with
timestamp 11 > start = 10 is in the actor set. -/
theorem c4_witness :
    some "PHID-USER-w4" ∈
      (build_taskstate_from_transactions [c4ev] ⟨10, 0⟩ ⟨100, 0⟩
        global_config).actorset := by
  have h := c4_actor_boundary [c4ev] ⟨10, 0⟩ ⟨100, 0⟩ global_config
    (by simp [sortedByTime]) (some "PHID-USER-w4")
  exact h.mpr (Or.inl ⟨c4ev, by simp, by decide, by decide, by decide, rfl⟩)

/-! ### Claim C6 -/

/-- Congruence of one loop iteration in the instant of `start`. -/
theorem processTact_instant_congr (wb : WBConfig) (s s' : AwareDT)
    (hs : s.instant = s'.instant) (st : TaskState) (t : Item) :
    processTact wb s st t = processTact wb s' st t := by
  simp only [processTact, fsStep, AwareDT.gtB, AwareDT.geB, AwareDT.ltB,
    instant_fromtimestamp, hs]

/-- Congruence of the walk in the instants of `start` and `end`. -/
theorem buildLoop_instant_congr (wb : WBConfig) (s e s' e' : AwareDT)
    (hs : s.instant = s'.instant) (he : e.instant = e'.instant) (l : List Item)
    (st : TaskState) :
    buildLoop wb s e st l = buildLoop wb s' e' st l := by
  induction l generalizing st with
  | nil => rfl
  | cons t rest ih =>
      simp only [buildLoop, gtB_fromtimestamp, he,
        processTact_instant_congr wb s s' hs]
      by_cases h : e'.instant < t.timestamp <;> simp [h, ih]

/-- C6: inside the reducer, timestamps compare by raw value.  Converting an
event's epoch timestamp to an aware datetime (in any timezone) and comparing
it with `start`/`end` is exactly an integer comparison of the raw timestamp
against the other datetime's instant, and the reducer's result depends on
`start`/`end` only through their instants — no timezone representation
influences the interval-membership tests `>= start`, `> start`, `> end`. -/
theorem c6_raw_value_comparisons :
    (∀ (ts off : Int) (d : AwareDT),
      (dt_fromtimestamp ts off).gtB d = decide (d.instant < ts) ∧
      (dt_fromtimestamp ts off).geB d = decide (d.instant ≤ ts) ∧
      (dt_fromtimestamp ts off).ltB d = decide (ts < d.instant)) ∧
    (∀ (l : List Item) (s e s' e' : AwareDT) (cfg : WBConfig),
      s.instant = s'.instant → e.instant = e'.instant →
      build_taskstate_from_transactions l s e cfg =
        build_taskstate_from_transactions l s' e' cfg) := by
  constructor
  · intro ts off d
    exact ⟨gtB_fromtimestamp ts off d, geB_fromtimestamp ts off d,
      ltB_fromtimestamp ts off d⟩
  · intro l s e s' e' cfg hs he
    simp only [build_taskstate_from_transactions,
      buildLoop_instant_congr cfg s e s' e' hs he l]

/-- Witness for C6 at a concrete input: start/end given in a zone with
offsets 5 and 4 agree with their instant-equal zero-offset counterparts. -/
theorem c6_witness :
    build_taskstate_from_transactions
        [⟨"status", 4, some "PHID-USER-csix", some "open", some "closed"⟩]
        ⟨7, 5⟩ ⟨10, 4⟩ global_config =
      build_taskstate_from_transactions
        [⟨"status", 4, some "PHID-USER-csix", some "open", some "closed"⟩]
        ⟨2, 0⟩ ⟨6, 0⟩ global_config :=
  c6_raw_value_comparisons.2 _ ⟨7, 5⟩ ⟨10, 4⟩ ⟨2, 0⟩ ⟨6, 0⟩ global_config
    (by decide) (by decide)

/-! ### Claim C7 -/

/-- Forgetting the actor set of a task state (the other components). -/
def eraseActorset (st : TaskState) : TaskState := { st with actorset := ∅ }

/-- C7, counterexample: an event with timestamp 30 > start = 0 carrying an
empty actor reference.  The claim says the reducer signals an
InvariantViolation that propagates and that processing does not continue
normally; instead the reducer returns a normal task state in which the event
was fully processed (its title boundary values are recorded) while the empty
actor was silently skipped (the actor set is empty). -/
theorem c7_counterexample :
    build_taskstate_from_transactions [⟨"title", 30, some "", some "a", some "b"⟩]
        ⟨0, 0⟩ ⟨100, 0⟩ global_config =
      { column := {}, status := {}, assignee := {},
        title := { startV := some (some "a"), endV := some (some "b") },
        actorset := ∅, waitingsince := none, workingsince := none } := by
  rfl

/-- The fix-up at the end of the reducer changes only the actor set. -/
theorem erase_build (l : List Item) (s e : AwareDT) (cfg : WBConfig) :
    eraseActorset (build_taskstate_from_transactions l s e cfg) =
      eraseActorset (buildLoop cfg s e {} l) := by
  simp only [build_taskstate_from_transactions]
  split
  · split
    · split <;> rfl
    · rfl
  · rfl

/-- One loop iteration treats an event with a replaced author exactly like the
original event on every component except the actor set. -/
theorem erase_processTact_author (wb : WBConfig) (s : AwareDT) (st st' : TaskState)
    (h : eraseActorset st = eraseActorset st') (t : Item) (x : Option String) :
    eraseActorset (processTact wb s st { t with authorPHID := x }) =
      eraseActorset (processTact wb s st' t) := by
  have hec := congrArg TaskState.column h
  have hes := congrArg TaskState.status h
  have hea := congrArg TaskState.assignee h
  have het := congrArg TaskState.title h
  have hew := congrArg TaskState.workingsince h
  have hew' := congrArg TaskState.waitingsince h
  have hgf : ∀ k, st.getField k = st'.getField k := by
    intro k
    cases k
    · exact hec
    · exact hes
    · exact hea
    · exact het
  have hcomp : ∀ k, (processTact wb s st { t with authorPHID := x }).getField k =
      (processTact wb s st' t).getField k := by
    intro k
    rw [processTact_getField, processTact_getField]
    by_cases hk : tmap t.transactionType = some k
    · rw [if_pos hk, if_pos hk, hgf k]
      rfl
    · rw [if_neg hk, if_neg hk]
      exact hgf k
  have hwork : (processTact wb s st { t with authorPHID := x }).workingsince =
      (processTact wb s st' t).workingsince := by
    rw [processTact_workingsince, processTact_workingsince]
    by_cases hc : t.transactionType = "projectcolumn" ∧ t.oldValue ≠ some wb.indev ∧
        t.newValue = some wb.indev
    · rw [if_pos hc, if_pos hc]
    · rw [if_neg hc, if_neg hc]
      exact hew
  have hwait : (processTact wb s st { t with authorPHID := x }).waitingsince =
      (processTact wb s st' t).waitingsince := by
    rw [processTact_waitingsince, processTact_waitingsince]
    by_cases hc : t.transactionType = "projectcolumn" ∧ t.oldValue ≠ some wb.feedback ∧
        t.newValue = some wb.feedback
    · rw [if_pos hc, if_pos hc]
    · rw [if_neg hc, if_neg hc]
      exact hew'
  exact TaskState.ext (hcomp .column) (hcomp .status) (hcomp .assignee) (hcomp .title)
    rfl hwait hwork

/-- The walk treats a feed with all authors replaced exactly like the
original feed on every component except the actor set. -/
theorem erase_buildLoop_author (wb : WBConfig) (s e : AwareDT) (f : Item → Option String) :
    ∀ (l : List Item) (st st' : TaskState), eraseActorset st = eraseActorset st' →
      eraseActorset (buildLoop wb s e st (l.map fun t => { t with authorPHID := f t })) =
        eraseActorset (buildLoop wb s e st' l) := by
  intro l
  induction l with
  | nil => exact fun st st' h => h
  | cons t rest ih =>
      intro st st' h
      simp only [List.map_cons, buildLoop]
      by_cases hg : (dt_fromtimestamp t.timestamp tzutc).gtB e = true
      · rw [if_pos hg, if_pos hg]
        exact h
      · rw [if_neg hg, if_neg hg]
        exact ih _ _ (erase_processTact_author wb s st st' h t (f t))

/-- C7 (amended): the reducer signals no error on an empty actor reference.
Such an event is skipped for actor aggregation only — a non-truthy identity
is never a member of the resulting actor set — and every other component of
the result (field boundaries, milestones) is computed exactly as if the event
carried any other author: processing of the task continues normally. -/
theorem c7_silent_skip :
    (∀ (l : List Item) (s e : AwareDT) (cfg : WBConfig) (a : Option String),
      truthyOpt a = false →
      a ∉ (build_taskstate_from_transactions l s e cfg).actorset) ∧
    (∀ (l : List Item) (s e : AwareDT) (cfg : WBConfig) (f : Item → Option String),
      eraseActorset (build_taskstate_from_transactions
          (l.map fun t => { t with authorPHID := f t }) s e cfg) =
        eraseActorset (build_taskstate_from_transactions l s e cfg)) := by
  constructor
  · intro l s e cfg a ha hmem
    rw [actorset_truthy l s e cfg a hmem] at ha
    exact Bool.noConfusion ha
  · intro l s e cfg f
    rw [erase_build, erase_build]
    exact erase_buildLoop_author cfg s e f l {} {} rfl

/-- Witness for C7's amended theorem at a concrete input: the empty actor
reference of the counterexample's event is not in the actor set. -/
theorem c7_witness :
    some "" ∉ (build_taskstate_from_transactions
        [⟨"title", 30, some "", some "a", some "b"⟩] ⟨0, 0⟩ ⟨100, 0⟩
        global_config).actorset :=
  c7_silent_skip.1 _ _ _ _ (some "") (by decide)

/-! ### Claim C10 -/

/-- C10: every element of the actor set produced by the reducer is a
non-empty identity reference — events with an empty actor reference are never
added, and the end-of-interval assignee is added only when non-empty. -/
theorem c10_actorset_nonempty (l : List Item) (start endT : AwareDT) (cfg : WBConfig)
    (a : Option String)
    (h : a ∈ (build_taskstate_from_transactions l start endT cfg).actorset) :
    truthyOpt a = true :=
  actorset_truthy l start endT cfg a h

/-- Witness for C10 at a concrete input: the sole actor-set member of a
one-event log is non-empty. -/
theorem c10_witness : truthyOpt (some "PHID-USER-cten") = true := by
  refine c10_actorset_nonempty
    [⟨"status", 12, some "PHID-USER-cten", some "open", some "closed"⟩]
    ⟨10, 0⟩ ⟨100, 0⟩ global_config (some "PHID-USER-cten") ?_
  decide

/-! ### Branch characterizations of the normalizer -/

theorem filterOne_status_or_title (tact : RawTransaction) (ph : Finset (Option String))
    (htt : tact.transactionType = "status" ∨ tact.transactionType = "title")
    (o n : Option String) (ho : tact.oldValue.asScalar = .ok o)
    (hn : tact.newValue.asScalar = .ok n) :
    filterOne tact ph = .ok (some ⟨tact.transactionType, tact.dateCreated,
      tact.authorPHID, o, n⟩, insert tact.authorPHID ph) := by
  simp only [filterOne]
  rw [if_pos htt, ho, hn]

theorem filterOne_reassign (tact : RawTransaction) (ph : Finset (Option String))
    (htt : tact.transactionType = "reassign")
    (o n : Option String) (ho : tact.oldValue.asScalar = .ok o)
    (hn : tact.newValue.asScalar = .ok n) :
    filterOne tact ph = .ok (some ⟨"reassign", tact.dateCreated, tact.authorPHID, o, n⟩,
      if truthyOpt n = true then
        insert n (if truthyOpt o = true then insert o (insert tact.authorPHID ph)
                  else insert tact.authorPHID ph)
      else if truthyOpt o = true then insert o (insert tact.authorPHID ph)
      else insert tact.authorPHID ph) := by
  simp only [filterOne]
  rw [htt, if_neg (by decide : ¬("reassign" = "status" ∨ "reassign" = "title")),
    if_pos (rfl : "reassign" = "reassign"), ho, hn]

theorem filterOne_other (tact : RawTransaction) (ph : Finset (Option String))
    (h1 : tact.transactionType ≠ "status") (h2 : tact.transactionType ≠ "title")
    (h3 : tact.transactionType ≠ "reassign")
    (h4 : tact.transactionType ≠ "projectcolumn") :
    filterOne tact ph = .ok (none, insert tact.authorPHID ph) := by
  simp only [filterOne]
  rw [if_neg (not_or.mpr ⟨h1, h2⟩), if_neg h3, if_neg h4]

theorem filterOne_projmismatch (tact : RawTransaction) (ph : Finset (Option String))
    (p : String) (cols : ColPHIDs) (htt : tact.transactionType = "projectcolumn")
    (hold : tact.oldValue = .proj p cols) (hne : p ≠ MWCORETEAM_PHID) :
    filterOne tact ph = .ok (none, insert tact.authorPHID ph) := by
  simp only [filterOne, hold]
  rw [htt, if_neg (by decide : ¬("projectcolumn" = "status" ∨ "projectcolumn" = "title")),
    if_neg (by decide : ¬("projectcolumn" = "reassign")),
    if_pos (rfl : "projectcolumn" = "projectcolumn"), if_neg hne]

theorem filterOne_col_dict (tact : RawTransaction) (ph : Finset (Option String))
    (kk v : String) (rest : List (String × String)) (q c : String) (cs : List String)
    (htt : tact.transactionType = "projectcolumn")
    (hold : tact.oldValue = .proj MWCORETEAM_PHID (.asDict ((kk, v) :: rest)))
    (hnew : tact.newValue = .proj q (.asList (c :: cs))) :
    filterOne tact ph = .ok (some ⟨"projectcolumn", tact.dateCreated, tact.authorPHID,
      some v, some c⟩,
      insert (some c) (insert (some v) (insert tact.authorPHID ph))) := by
  simp only [filterOne, hold, hnew]
  rw [htt, if_neg (by decide : ¬("projectcolumn" = "status" ∨ "projectcolumn" = "title")),
    if_neg (by decide : ¬("projectcolumn" = "reassign")),
    if_pos (rfl : "projectcolumn" = "projectcolumn"), if_pos trivial]

theorem filterOne_col_list (tact : RawTransaction) (ph : Finset (Option String))
    (entries : List String) (q c : String) (cs : List String)
    (htt : tact.transactionType = "projectcolumn")
    (hold : tact.oldValue = .proj MWCORETEAM_PHID (.asList entries))
    (hnew : tact.newValue = .proj q (.asList (c :: cs))) :
    filterOne tact ph = .ok (some ⟨"projectcolumn", tact.dateCreated, tact.authorPHID,
      none, some c⟩, insert (some c) (insert tact.authorPHID ph)) := by
  simp only [filterOne, hold, hnew]
  rw [htt, if_neg (by decide : ¬("projectcolumn" = "status" ∨ "projectcolumn" = "title")),
    if_neg (by decide : ¬("projectcolumn" = "reassign")),
    if_pos (rfl : "projectcolumn" = "projectcolumn"), if_pos trivial]

/-! ### Claim C8 -/

/-- C8: the normalizer accepts a column-move record only when its old-value
payload names the configured team project: a mismatched record yields no item
(and, at the feed level, contributes nothing to the output list), so it never
reaches the reducer.  For accepted records the new column id is the first
entry of the new-value column collection; when the old-value column payload
is a mapping, the old column id is its first mapped value (the rest dropped),
and otherwise the old value is `None`. -/
theorem c8_column_move_filter :
    (∀ (tact : RawTransaction) (ph : Finset (Option String)) (p : String)
        (cols : ColPHIDs),
      tact.transactionType = "projectcolumn" → tact.oldValue = .proj p cols →
      p ≠ MWCORETEAM_PHID →
      filterOne tact ph = .ok (none, insert tact.authorPHID ph)) ∧
    (∀ (rest : List RawTransaction) (tact : RawTransaction)
        (ph : Finset (Option String)) (p : String) (cols : ColPHIDs),
      tact.transactionType = "projectcolumn" → tact.oldValue = .proj p cols →
      p ≠ MWCORETEAM_PHID →
      get_filtered_transactions_for_task (tact :: rest) ph =
        get_filtered_transactions_for_task rest (insert tact.authorPHID ph)) ∧
    (∀ (tact : RawTransaction) (ph : Finset (Option String)) (kk v : String)
        (rest : List (String × String)) (q c : String) (cs : List String),
      tact.transactionType = "projectcolumn" →
      tact.oldValue = .proj MWCORETEAM_PHID (.asDict ((kk, v) :: rest)) →
      tact.newValue = .proj q (.asList (c :: cs)) →
      ∃ ph', filterOne tact ph = .ok (some ⟨"projectcolumn", tact.dateCreated,
        tact.authorPHID, some v, some c⟩, ph')) ∧
    (∀ (tact : RawTransaction) (ph : Finset (Option String)) (entries : List String)
        (q c : String) (cs : List String),
      tact.transactionType = "projectcolumn" →
      tact.oldValue = .proj MWCORETEAM_PHID (.asList entries) →
      tact.newValue = .proj q (.asList (c :: cs)) →
      ∃ ph', filterOne tact ph = .ok (some ⟨"projectcolumn", tact.dateCreated,
        tact.authorPHID, none, some c⟩, ph')) := by
  refine ⟨?_, ?_, ?_, ?_⟩
  · intro tact ph p cols htt hold hne
    exact filterOne_projmismatch tact ph p cols htt hold hne
  · intro rest tact ph p cols htt hold hne
    simp only [get_filtered_transactions_for_task,
      filterOne_projmismatch tact ph p cols htt hold hne]
  · intro tact ph kk v rest q c cs htt hold hnew
    exact ⟨_, filterOne_col_dict tact ph kk v rest q c cs htt hold hnew⟩
  · intro tact ph entries q c cs htt hold hnew
    exact ⟨_, filterOne_col_list tact ph entries q c cs htt hold hnew⟩

/-- Witness for C8 at a concrete input: an accepted column-move whose
old-value payload is a two-free mapping and whose new-value collection has two
entries normalizes to the first mapped value and the first new entry. -/
theorem c8_witness :
    ∃ ph', filterOne ⟨"projectcolumn", 50, some "PHID-USER-weight",
        .proj MWCORETEAM_PHID (.asDict [("col", "PHID-PCOL-oldw")]),
        .proj MWCORETEAM_PHID (.asList ["PHID-PCOL-neww", "PHID-PCOL-extra"])⟩ ∅ =
      .ok (some ⟨"projectcolumn", 50, some "PHID-USER-weight", some "PHID-PCOL-oldw",
          some "PHID-PCOL-neww"⟩, ph') :=
  c8_column_move_filter.2.2.1 _ ∅ "col" "PHID-PCOL-oldw" [] MWCORETEAM_PHID
    "PHID-PCOL-neww" ["PHID-PCOL-extra"] rfl rfl rfl

/-! ### Claim C9 -/

/-- The raw column-move record used to refute C9. -/
def c9tact : RawTransaction :=
  ⟨"projectcolumn", 100, some "PHID-USER-auth",
    .proj MWCORETEAM_PHID (.asDict [("k1", "PHID-PCOL-old1")]),
    .proj MWCORETEAM_PHID (.asList ["PHID-PCOL-new1"])⟩

/-- C9, counterexample: the claim says an accepted column-move record
registers no value beyond its author with the identity-resolution
collaborator.  Here an accepted column-move leaves the store containing the
extracted old and new column ids in addition to the author — the second and
third conjuncts exhibit a registered value that is not the record's author. -/
theorem c9_counterexample :
    filterOne c9tact ∅ =
      .ok (some ⟨"projectcolumn", 100, some "PHID-USER-auth", some "PHID-PCOL-old1",
          some "PHID-PCOL-new1"⟩,
        insert (some "PHID-PCOL-new1") (insert (some "PHID-PCOL-old1")
          (insert (some "PHID-USER-auth") ∅))) ∧
      some "PHID-PCOL-new1" ∈ insert (some "PHID-PCOL-new1")
        (insert (some "PHID-PCOL-old1")
          (insert (some "PHID-USER-auth") (∅ : Finset (Option String)))) ∧
      (some "PHID-PCOL-new1" : Option String) ≠ c9tact.authorPHID := by
  refine ⟨rfl, Finset.mem_insert_self _ _, ?_⟩
  decide

/-- C9 (amended): the values the normalizer registers with the
identity-resolution collaborator are exactly: every record's author reference
(also for discarded records), each truthy endpoint of a reassign record, and,
for an *accepted* column-move record, the extracted old column id (when the
old payload is a mapping) and the new column id.  The six conjuncts
characterize the registration effect of each record shape. -/
theorem c9_registration_set :
    (∀ (tact : RawTransaction) (ph : Finset (Option String)),
      tact.transactionType = "status" ∨ tact.transactionType = "title" →
      ∀ o n : Option String, tact.oldValue.asScalar = .ok o →
        tact.newValue.asScalar = .ok n →
      filterOne tact ph = .ok (some ⟨tact.transactionType, tact.dateCreated,
        tact.authorPHID, o, n⟩, insert tact.authorPHID ph)) ∧
    (∀ (tact : RawTransaction) (ph : Finset (Option String)),
      tact.transactionType = "reassign" →
      ∀ o n : Option String, tact.oldValue.asScalar = .ok o →
        tact.newValue.asScalar = .ok n →
      filterOne tact ph = .ok (some ⟨"reassign", tact.dateCreated, tact.authorPHID,
          o, n⟩,
        if truthyOpt n = true then
          insert n (if truthyOpt o = true then insert o (insert tact.authorPHID ph)
                    else insert tact.authorPHID ph)
        else if truthyOpt o = true then insert o (insert tact.authorPHID ph)
        else insert tact.authorPHID ph)) ∧
    (∀ (tact : RawTransaction) (ph : Finset (Option String)),
      tact.transactionType ≠ "status" → tact.transactionType ≠ "title" →
      tact.transactionType ≠ "reassign" → tact.transactionType ≠ "projectcolumn" →
      filterOne tact ph = .ok (none, insert tact.authorPHID ph)) ∧
    (∀ (tact : RawTransaction) (ph : Finset (Option String)) (p : String)
        (cols : ColPHIDs),
      tact.transactionType = "projectcolumn" → tact.oldValue = .proj p cols →
      p ≠ MWCORETEAM_PHID →
      filterOne tact ph = .ok (none, insert tact.authorPHID ph)) ∧
    (∀ (tact : RawTransaction) (ph : Finset (Option String)) (kk v : String)
        (rest : List (String × String)) (q c : String) (cs : List String),
      tact.transactionType = "projectcolumn" →
      tact.oldValue = .proj MWCORETEAM_PHID (.asDict ((kk, v) :: rest)) →
      tact.newValue = .proj q (.asList (c :: cs)) →
      filterOne tact ph = .ok (some ⟨"projectcolumn", tact.dateCreated,
        tact.authorPHID, some v, some c⟩,
        insert (some c) (insert (some v) (insert tact.authorPHID ph)))) ∧
    (∀ (tact : RawTransaction) (ph : Finset (Option String)) (entries : List String)
        (q c : String) (cs : List String),
      tact.transactionType = "projectcolumn" →
      tact.oldValue = .proj MWCORETEAM_PHID (.asList entries) →
      tact.newValue = .proj q (.asList (c :: cs)) →
      filterOne tact ph = .ok (some ⟨"projectcolumn", tact.dateCreated,
        tact.authorPHID, none, some c⟩,
        insert (some c) (insert tact.authorPHID ph))) := by
  refine ⟨?_, ?_, ?_, ?_, ?_, ?_⟩
  · intro tact ph htt o n ho hn
    exact filterOne_status_or_title tact ph htt o n ho hn
  · intro tact ph htt o n ho hn
    exact filterOne_reassign tact ph htt o n ho hn
  · intro tact ph h1 h2 h3 h4
    exact filterOne_other tact ph h1 h2 h3 h4
  · intro tact ph p cols htt hold hne
    exact filterOne_projmismatch tact ph p cols htt hold hne
  · intro tact ph kk v rest q c cs htt hold hnew
    exact filterOne_col_dict tact ph kk v rest q c cs htt hold hnew
  · intro tact ph entries q c cs htt hold hnew
    exact filterOne_col_list tact ph entries q c cs htt hold hnew

/-- Witness for C9's amended theorem at a concrete input: a reassign record
with a `None` old endpoint registers only its author and the new endpoint. -/
theorem c9_witness :
    filterOne ⟨"reassign", 60, some "PHID-USER-wnine", .pyNone,
        .pyStr "PHID-USER-newnine"⟩ ∅ =
      .ok (some ⟨"reassign", 60, some "PHID-USER-wnine", none,
          some "PHID-USER-newnine"⟩,
        insert (some "PHID-USER-newnine") (insert (some "PHID-USER-wnine") ∅)) := by
  have h := c9_registration_set.2.1 ⟨"reassign", 60, some "PHID-USER-wnine", .pyNone,
      .pyStr "PHID-USER-newnine"⟩ ∅ rfl none (some "PHID-USER-newnine") rfl rfl
  rw [h]
  rfl

end Wbstatus
